import Mathlib

/-!
Verification development for the `http-proxy-server` repository.

The repository contains two Go programs:
* `tls-server/main.go` — a TLS-terminated framed-protocol tunnel: a client
  sends `secret ++ targetAddress ++ '\n' ++ leftoverPayload` in its first
  frame; the server authenticates the secret, dials the target over TCP,
  forwards the leftover payload, and then relays bytes bidirectionally.
* an HTTP CONNECT proxy built on fasthttp: it checks a
  `Proxy-Authorization: Basic base64(creds)` header, resolves the target
  host/port (default port 443 for CONNECT, 80 in the outbound HTTP
  client's dial function), and tunnels or forwards.

Bytes are modelled as `Nat` (only equality comparisons occur), byte
strings as `List Nat`, and Go strings handled by `net.SplitHostPort`
as `List Char`.  Network effects (reads, dials, writes) are modelled by
explicit environments recording what each effectful call would return,
and each handler is a pure function from its environment to an outcome
(plus, where ordering matters, a trace of the side effects it performs).
-/

/-- Bytes of a string literal (ASCII code points). -/
def strBytes (s : String) : List Nat :=
  s.data.map Char.toNat

namespace TlsServer

/-- Newline byte, the delimiter `bytes.IndexRune(addr, '\n')` searches for. -/
def NL : Nat := 10

/-- Index of the first newline byte, modelling `bytes.IndexRune(addr, '\n')`
(`none` models the `-1` result). -/
def findNL : List Nat → Option Nat
  | [] => none
  | b :: bs => if b = NL then some 0 else (findNL bs).map (· + 1)

/-- Buffer length set in `main` (line 153):
`credsLen + 253 (domain) + 2 (brackets) + 1 (colon) + 5 (port) + 1 (newline)`. -/
def bufLen (credsLen : Nat) : Nat :=
  credsLen + 253 + 2 + 1 + 5 + 1

/-- Environment of one `serve` call: the residual contents of the pooled
buffer handed out by `bytePool.Get`, the result of the single
`c.Read(buf)` (`none` models a read error), and the results the outside
world would give to the dial and the leftover write. -/
structure ServeEnv where
  pool : List Nat
  readResult : Option (List Nat)
  dialOk : List Nat → Bool
  writeOk : Bool

/-- Outcome of `serve`, one constructor per `return` path of the Go code. -/
inductive ServeOutcome
  | readErr
  | shortRead
  | noNewline
  | badNewlineIdx
  | authFail
  | dialFail (target : List Nat)
  | writeFail (target leftover : List Nat)
  | relay (target leftover : List Nat)
  deriving DecidableEq

/-- Side effects `serve` can perform, in order. -/
inductive Ev
  | putBuf
  | closeClient
  | closeTarget
  | dial (target : List Nat)
  | write (bs : List Nat)
  | relayStart
  deriving DecidableEq

/-- Parsing and handling of the bytes read into the buffer
(`main.go` lines 95-142): find the newline, check its position, compare
the leading `credsLen` bytes with the secret, extract target address and
leftover, dial, forward the leftover, and enter the relay. -/
def parseFrame (creds : List Nat) (dialOk : List Nat → Bool) (writeOk : Bool)
    (addr : List Nat) : ServeOutcome :=
  match findNL addr with
  | none => ServeOutcome.noNewline
  | some idx =>
    if idx ≤ creds.length then ServeOutcome.badNewlineIdx
    else if addr.take creds.length = creds then
      let rest := addr.drop (idx + 1)
      let target := (addr.take idx).drop creds.length
      if dialOk target then
        if rest = [] then ServeOutcome.relay target rest
        else if writeOk then ServeOutcome.relay target rest
        else ServeOutcome.writeFail target rest
      else ServeOutcome.dialFail target
    else ServeOutcome.authFail

/-- The `serve` handler (`main.go` lines 76-143).  The single `c.Read(buf)`
stores `data` into the front of the pooled buffer; `addr := buf[:n]` then
recovers exactly the first `n = data.length` bytes of the updated buffer. -/
def serve (creds : List Nat) (env : ServeEnv) : ServeOutcome :=
  match env.readResult with
  | none => ServeOutcome.readErr
  | some data =>
    if data.length < creds.length then ServeOutcome.shortRead
    else
      parseFrame creds env.dialOk env.writeOk
        ((data ++ env.pool.drop data.length).take data.length)

/-- Side-effect trace of each outcome, following the order of the Go code:
every failure before the dial calls `bytePool.Put` and then the deferred
`c.Close()`; after a successful dial the deferred `r.Close()` runs before
the deferred `c.Close()`; the leftover write happens before
`bytePool.Put` and before the two `io.Copy` calls start the relay. -/
def serveTrace : ServeOutcome → List Ev
  | ServeOutcome.readErr => [Ev.putBuf, Ev.closeClient]
  | ServeOutcome.shortRead => [Ev.putBuf, Ev.closeClient]
  | ServeOutcome.noNewline => [Ev.putBuf, Ev.closeClient]
  | ServeOutcome.badNewlineIdx => [Ev.putBuf, Ev.closeClient]
  | ServeOutcome.authFail => [Ev.putBuf, Ev.closeClient]
  | ServeOutcome.dialFail t => [Ev.dial t, Ev.putBuf, Ev.closeClient]
  | ServeOutcome.writeFail t l =>
      [Ev.dial t, Ev.write l, Ev.putBuf, Ev.closeTarget, Ev.closeClient]
  | ServeOutcome.relay t l =>
      Ev.dial t ::
        ((if l = [] then [] else [Ev.write l]) ++
          [Ev.putBuf, Ev.relayStart, Ev.closeTarget, Ev.closeClient])

/-- Whether the outcome is one of the five pre-dial rejection paths. -/
def ServeOutcome.isReject : ServeOutcome → Bool
  | ServeOutcome.readErr => true
  | ServeOutcome.shortRead => true
  | ServeOutcome.noNewline => true
  | ServeOutcome.badNewlineIdx => true
  | ServeOutcome.authFail => true
  | _ => false

/-- Whether the outcome is the token-comparison failure path. -/
def ServeOutcome.isAuthFail : ServeOutcome → Bool
  | ServeOutcome.authFail => true
  | _ => false

/-- Concrete type of a connection returned by `ln.Accept()`:
`*net.TCPConn` from a plain TCP listener, `*tls.Conn` from the
`tls.NewListener` wrapper used in `main`, `*net.UnixConn` from a unix
socket listener. -/
inductive ConnKind
  | tcp
  | tls
  | unix
  deriving DecidableEq

/-- One result of the blocking `ln.Accept()` call, as seen by `acceptConn`:
either a connection (with the results the `SetKeepAlive` and
`SetKeepAlivePeriod` calls would return on it), a timeout-class error, an
`io.EOF` error, an error whose text contains
`"use of closed network connection"`, or any other error. -/
inductive AcceptStep
  | conn (k : ConnKind) (kaOk kaPerOk : Bool)
  | timeout
  | eofErr
  | closedErr
  | otherErr
  deriving DecidableEq

/-- Side effects of `acceptConn` and of the accept loop in `main`. -/
inductive AcceptEv
  | logTimeout
  | sleep1s
  | setKeepAlive
  | setKeepAlivePeriod
  | closeConn
  | dispatch
  deriving DecidableEq

/-- Return value of `acceptConn`: a connection (recording whether keepalive
and the keepalive period were set on it), `io.EOF` (shutdown), a permanent
error, or `noConn` when the modelled step list is exhausted while the loop
is still blocked in `Accept`. -/
inductive AcceptResult
  | conn (k : ConnKind) (kaSet kaPeriodSet : Bool)
  | eof
  | fatal
  | noConn
  deriving DecidableEq

/-- The `acceptConn` helper (`main.go` lines 33-64) run against a list of
`Accept()` results: timeouts are logged and retried after a one-second
sleep; `io.EOF` and "use of closed network connection" both return
`io.EOF`; any other error is logged and returned as permanent; on success
the keepalive block runs only when the connection is a `*net.TCPConn`
(`TCPKeepalive` is the boolean global, `TCPKeepalivePeriod` the duration
global).  Returns the events performed, the result, and the unconsumed
accept results. -/
def acceptConn (kaEnabled : Bool) (kaPeriod : Nat) :
    List AcceptStep → List AcceptEv × AcceptResult × List AcceptStep
  | [] => ([], AcceptResult.noConn, [])
  | AcceptStep.timeout :: rest =>
    let r := acceptConn kaEnabled kaPeriod rest
    (AcceptEv.logTimeout :: AcceptEv.sleep1s :: r.1, r.2)
  | AcceptStep.eofErr :: rest => ([], AcceptResult.eof, rest)
  | AcceptStep.closedErr :: rest => ([], AcceptResult.eof, rest)
  | AcceptStep.otherErr :: rest => ([], AcceptResult.fatal, rest)
  | AcceptStep.conn k kaOk kaPerOk :: rest =>
    if k = ConnKind.tcp ∧ kaEnabled = true then
      if kaOk then
        if 0 < kaPeriod then
          if kaPerOk then
            ([AcceptEv.setKeepAlive, AcceptEv.setKeepAlivePeriod],
              AcceptResult.conn k true true, rest)
          else
            ([AcceptEv.setKeepAlive, AcceptEv.closeConn], AcceptResult.fatal, rest)
        else ([AcceptEv.setKeepAlive], AcceptResult.conn k true false, rest)
      else ([AcceptEv.closeConn], AcceptResult.fatal, rest)
    else ([], AcceptResult.conn k false false, rest)

/-- Final state of the accept loop in `main`. -/
inductive MainResult
  | cleanExit
  | fatalExit
  | stillLooping
  deriving DecidableEq

/-- The accept loop of `main` (`main.go` lines 189-198), with fuel bounding
the number of `acceptConn` calls: `io.EOF` makes `main` return cleanly,
any other error reaches `log.Panicln`, and each accepted connection is
dispatched with `go serve(c)`.  The globals are `TCPKeepalive = true` and
`TCPKeepalivePeriod = 0` (never assigned). -/
def mainLoop : Nat → List AcceptStep → List AcceptEv × MainResult
  | 0, _ => ([], MainResult.stillLooping)
  | fuel + 1, steps =>
    match acceptConn true 0 steps with
    | (evs, AcceptResult.noConn, _) => (evs, MainResult.stillLooping)
    | (evs, AcceptResult.eof, _) => (evs, MainResult.cleanExit)
    | (evs, AcceptResult.fatal, _) => (evs, MainResult.fatalExit)
    | (evs, AcceptResult.conn _ _ _, rest) =>
      let r := mainLoop fuel rest
      (evs ++ AcceptEv.dispatch :: r.1, r.2)

end TlsServer

namespace HttpProxy

/-- Error kinds of `net.SplitHostPort`; the Go function returns
`*net.AddrError` values whose `Err` text is, respectively,
"missing port in address", "too many colons in address",
"missing ']' in address", "unexpected '[' in address",
"unexpected ']' in address".  Only `missingPort` has a text containing
the substring `"missing port"` tested by the callers. -/
inductive AddrErr
  | missingPort
  | tooManyColons
  | missingRBracket
  | unexpectedLBracket
  | unexpectedRBracket
  deriving DecidableEq

/-- Index of the last occurrence of a character, modelling the
`last(hostPort, ':')` helper of `net.SplitHostPort`. -/
def lastIdxOf (c : Char) : List Char → Option Nat
  | [] => none
  | x :: xs =>
    match lastIdxOf c xs with
    | some i => some (i + 1)
    | none => if x = c then some 0 else none

/-- Model of `net.SplitHostPort` (Go standard library): the port starts
after the last colon; a leading `[` starts a bracketed host that must end
with `]` immediately before that colon; stray brackets or extra colons in
the host are errors. -/
def splitHostPort (hp : List Char) : Except AddrErr (List Char × List Char) :=
  match lastIdxOf ':' hp with
  | none => Except.error AddrErr.missingPort
  | some i =>
    if hp.head? = some '[' then
      match (hp.findIdx? (· = ']')) with
      | none => Except.error AddrErr.missingRBracket
      | some e =>
        if e + 1 = hp.length then Except.error AddrErr.missingPort
        else if e + 1 = i then
          if '[' ∈ hp.drop 1 then Except.error AddrErr.unexpectedLBracket
          else if ']' ∈ hp.drop (e + 1) then Except.error AddrErr.unexpectedRBracket
          else Except.ok ((hp.take e).drop 1, hp.drop (i + 1))
        else if hp.get? (e + 1) = some ':' then Except.error AddrErr.tooManyColons
        else Except.error AddrErr.missingPort
    else
      if ':' ∈ hp.take i then Except.error AddrErr.tooManyColons
      else if '[' ∈ hp then Except.error AddrErr.unexpectedLBracket
      else if ']' ∈ hp then Except.error AddrErr.unexpectedRBracket
      else Except.ok (hp.take i, hp.drop (i + 1))

/-- Model of `strings.TrimRight(addr, ":")`. -/
def trimRightColon (s : List Char) : List Char :=
  (s.reverse.dropWhile (· = ':')).reverse

/-- Character of a 6-bit group in the standard base64 alphabet
`A-Z a-z 0-9 + /` (as an ASCII code). -/
def b64Char (n : Nat) : Nat :=
  if n < 26 then 65 + n
  else if n < 52 then 97 + (n - 26)
  else if n < 62 then 48 + (n - 52)
  else if n = 62 then 43
  else 47

/-- Model of `base64.StdEncoding.EncodeToString`: 3-byte groups become 4
alphabet characters; a 1-byte remainder becomes 2 characters plus `==`
(61 is the code of `=`); a 2-byte remainder becomes 3 characters plus
`=`. -/
def base64Encode : List Nat → List Nat
  | [] => []
  | [a] => [b64Char (a / 4), b64Char (a % 4 * 16), 61, 61]
  | [a, b] => [b64Char (a / 4), b64Char (a % 4 * 16 + b / 16), b64Char (b % 16 * 4), 61]
  | a :: b :: c :: rest =>
    b64Char (a / 4) :: b64Char (a % 4 * 16 + b / 16) ::
      b64Char (b % 16 * 4 + c / 64) :: b64Char (c % 64) :: base64Encode rest

/-- The `proxyAuth` value computed in `main` (lines 131-135): `nil` when
no credentials are configured, otherwise the exact bytes
`"Basic " + base64.StdEncoding.EncodeToString(creds)`. -/
def mkProxyAuth (creds : String) : Option (List Nat) :=
  if creds = "" then none
  else some (strBytes "Basic " ++ base64Encode (strBytes creds))

/-- The parts of a fasthttp request read by `requestHandler`: the method,
`ctx.Host()`, `ctx.Path()` and the `Proxy-Authorization` header bytes
(`Peek` yields `nil`, modelled `[]`, when the header is absent). -/
structure HttpReq where
  method : List Char
  host : List Char
  path : List Char
  proxyAuthHeader : List Nat

/-- Result of `httpsHandler`: either the dial failed (the error is
returned to `requestHandler`), or the 200 OK response with keep-alive
headers was sent and the connection was hijacked into the bidirectional
raw relay. -/
inductive HttpsRes
  | dialErr
  | hijacked
  deriving DecidableEq

/-- The `httpsHandler` function (lines 48-66): dial the remote address
with the shared dial function; on success set status 200, set keep-alive
headers and hijack the client connection into the two `io.Copy` relay
directions. -/
def httpsHandler (dialOk : List Char → Bool) (remoteAddr : List Char) : HttpsRes :=
  if dialOk remoteAddr then HttpsRes.hijacked else HttpsRes.dialErr

/-- Response produced by `requestHandler`: a plain status code
(`SetStatusCode` and return), a hijacked CONNECT tunnel toward a dialed
target, or a request forwarded through `httpClientLocal.DoTimeout` whose
response was copied back. -/
inductive HttpRes
  | status (code : Nat)
  | tunnel (target : List Char)
  | forwarded
  deriving DecidableEq

/-- Observable outcome of one `requestHandler` invocation: the targets it
dialed (through `httpsHandler`), whether the external HTTP forwarder was
invoked, and the response. -/
structure HandlerOut where
  dials : List (List Char)
  forwardCalled : Bool
  res : HttpRes
  deriving DecidableEq

/-- The host-splitting step of `requestHandler` (lines 92-102): on a
`*net.AddrError` whose text contains "missing port", retry with `":443"`
appended. -/
def splitHostRetry443 (host : List Char) : Except AddrErr (List Char × List Char) :=
  match splitHostPort host with
  | Except.ok r => Except.ok r
  | Except.error e =>
    if e = AddrErr.missingPort then splitHostPort (host ++ [':', '4', '4', '3'])
    else Except.error e

/-- Body of `requestHandler` after the credentials gate (lines 80-119):
resolve the host (falling back to the path without its leading slash),
reject an empty host, split host and port with the `":443"` retry, then
either run `httpsHandler` on `"[" + hostname + "]:" + port` for CONNECT
or forward the request through the pooled HTTP client. -/
def requestHandlerBody (dialOk : List Char → Bool) (forwardOk : Bool)
    (req : HttpReq) : HandlerOut :=
  let host := if req.host.length < 1 then req.path.drop 1 else req.host
  if host.length < 1 then ⟨[], false, HttpRes.status 400⟩
  else
    match splitHostRetry443 host with
    | Except.error _ => ⟨[], false, HttpRes.status 400⟩
    | Except.ok (hostname, port) =>
      if req.method = String.data "CONNECT" then
        match httpsHandler dialOk ('[' :: (hostname ++ ']' :: ':' :: port)) with
        | HttpsRes.hijacked =>
          ⟨['[' :: (hostname ++ ']' :: ':' :: port)], false,
            HttpRes.tunnel ('[' :: (hostname ++ ']' :: ':' :: port))⟩
        | HttpsRes.dialErr =>
          ⟨['[' :: (hostname ++ ']' :: ':' :: port)], false, HttpRes.status 500⟩
      else if forwardOk then ⟨[], true, HttpRes.forwarded⟩
      else ⟨[], true, HttpRes.status 500⟩

/-- The `requestHandler` function (lines 68-120): when `proxyAuth` is
configured, a request whose `Proxy-Authorization` header is not
byte-for-byte equal to it is answered with status 400 before anything
else happens. -/
def requestHandler (proxyAuth : Option (List Nat)) (dialOk : List Char → Bool)
    (forwardOk : Bool) (req : HttpReq) : HandlerOut :=
  match proxyAuth with
  | some pa =>
    if req.proxyAuthHeader = pa then requestHandlerBody dialOk forwardOk req
    else ⟨[], false, HttpRes.status 400⟩
  | none => requestHandlerBody dialOk forwardOk req

/-- Default-port completion applied by the `httpClientLocal` dial
function after splitting: `if port == "" || port == ":" { port = "80" }`. -/
def defaultPort80 (port : List Char) : List Char :=
  if port = [] ∨ port = [':'] then ['8', '0'] else port

/-- The `Dial` closure of `httpClientLocal` (lines 30-45): split the
address; on a "missing port" error retry with the address
right-trimmed of colons and `":80"` appended; then dial
`"[" + hostname + "]:" + port` (with the empty-port default of 80).
Returns the address string handed to the shared dial function. -/
def httpClientDial (addr : List Char) : Except AddrErr (List Char) :=
  match splitHostPort addr with
  | Except.ok (hostname, port) =>
    Except.ok ('[' :: (hostname ++ ']' :: ':' :: defaultPort80 port))
  | Except.error e =>
    if e = AddrErr.missingPort then
      match splitHostPort (trimRightColon addr ++ [':', '8', '0']) with
      | Except.ok (hostname, port) =>
        Except.ok ('[' :: (hostname ++ ']' :: ':' :: defaultPort80 port))
      | Except.error e2 => Except.error e2
    else Except.error e

end HttpProxy

/-- Taking exactly the length of the left part of an append returns that part. -/
theorem take_len_append {α : Type} (xs ys : List α) : (xs ++ ys).take xs.length = xs := by
  induction xs with
  | nil => rfl
  | cons a as ih => simp [ih]

/-- Dropping exactly the length of the left part of an append returns the right part. -/
theorem drop_len_append {α : Type} (xs ys : List α) : (xs ++ ys).drop xs.length = ys := by
  induction xs with
  | nil => rfl
  | cons a as ih => simp [ih]

namespace TlsServer

/-- On a successful read the residual pool contents drop out:
`buf[:n]` is exactly the data just read. -/
theorem serve_some (creds pool data : List Nat) (d : List Nat → Bool) (w : Bool) :
    serve creds ⟨pool, some data, d, w⟩ =
      if data.length < creds.length then ServeOutcome.shortRead
      else parseFrame creds d w data := by
  simp only [serve]
  rw [take_len_append]

/-- A byte list without a newline has no newline index. -/
theorem findNL_eq_none (xs : List Nat) (h : NL ∉ xs) : findNL xs = none := by
  induction xs with
  | nil => rfl
  | cons b bs ih =>
    rw [List.mem_cons, not_or] at h
    have hb : ¬ b = NL := fun hb => h.1 hb.symm
    simp only [findNL, if_neg hb, ih h.2, Option.map_none']

/-- The first newline of `xs ++ NL :: ys` sits exactly at `xs.length`
when `xs` itself contains no newline. -/
theorem findNL_append (xs ys : List Nat) (h : NL ∉ xs) :
    findNL (xs ++ NL :: ys) = some xs.length := by
  induction xs with
  | nil => simp [findNL]
  | cons b bs ih =>
    rw [List.mem_cons, not_or] at h
    have hb : ¬ b = NL := fun hb => h.1 hb.symm
    simp only [List.cons_append, findNL, if_neg hb, List.append_eq, ih h.2,
      Option.map_some', List.length_cons]

/-- Parsing a well-formed frame `secret ++ address ++ newline ++ payload`
reaches the dial with exactly the address, and on success forwards
exactly the payload. -/
theorem parseFrame_valid (creds a p : List Nat) (d : List Nat → Bool) (w : Bool)
    (hc : NL ∉ creds) (ha : NL ∉ a) (hne : a ≠ []) :
    parseFrame creds d w (creds ++ a ++ NL :: p) =
      if d a then
        (if p = [] then ServeOutcome.relay a p
         else if w then ServeOutcome.relay a p
         else ServeOutcome.writeFail a p)
      else ServeOutcome.dialFail a := by
  have hmem : NL ∉ creds ++ a := by
    rw [List.mem_append, not_or]
    exact ⟨hc, ha⟩
  have hfind : findNL (creds ++ a ++ NL :: p) = some (creds.length + a.length) := by
    simpa using findNL_append (creds ++ a) p hmem
  have h1 : ¬ creds.length + a.length ≤ creds.length := by
    have := List.length_pos.2 hne
    omega
  have h2 : (creds ++ a ++ NL :: p).take creds.length = creds := by
    rw [List.append_assoc]
    exact take_len_append creds (a ++ NL :: p)
  have h3 : (creds ++ a ++ NL :: p).drop (creds.length + a.length + 1) = p := by
    have he : creds ++ a ++ NL :: p = (creds ++ a ++ [NL]) ++ p := by simp
    have hl : (creds ++ a ++ [NL]).length = creds.length + a.length + 1 := by
      simp only [List.length_append, List.length_cons, List.length_nil]
    rw [he, ← hl, drop_len_append]
  have h4 : ((creds ++ a ++ NL :: p).take (creds.length + a.length)).drop creds.length
      = a := by
    rw [← List.length_append creds a, take_len_append, drop_len_append]
  simp only [parseFrame, hfind, if_neg h1, h2, h3, h4, eq_self_iff_true, if_true]

/-- The handler on a well-formed frame: the only remaining branch points
are the dial result and, when the payload is non-empty, the write
result. -/
theorem serve_valid_frame (creds a p pool : List Nat) (d : List Nat → Bool) (w : Bool)
    (hc : NL ∉ creds) (ha : NL ∉ a) (hne : a ≠ []) :
    serve creds ⟨pool, some (creds ++ a ++ NL :: p), d, w⟩ =
      if d a then
        (if p = [] then ServeOutcome.relay a p
         else if w then ServeOutcome.relay a p
         else ServeOutcome.writeFail a p)
      else ServeOutcome.dialFail a := by
  rw [serve_some]
  have hlen : ¬ (creds ++ a ++ NL :: p).length < creds.length := by
    simp only [List.length_append, List.length_cons]
    omega
  rw [if_neg hlen, parseFrame_valid creds a p d w hc ha hne]

end TlsServer

open TlsServer HttpProxy

/-- C1: with a non-empty configured secret, every handshake whose first
`len(secret)` bytes differ byte-for-byte from the secret is rejected: the
outcome is one of the pre-dial failure paths, and the effect trace is
exactly "return the pooled buffer, close the connection" — in particular
no dial is ever attempted. -/
theorem auth_mismatch_rejected_without_dial
    (creds pool data : List Nat) (d : List Nat → Bool) (w : Bool)
    (_hc : creds ≠ []) (hne : data.take creds.length ≠ creds) :
    (serve creds ⟨pool, some data, d, w⟩).isReject = true ∧
      serveTrace (serve creds ⟨pool, some data, d, w⟩) = [Ev.putBuf, Ev.closeClient] := by
  rw [serve_some]
  by_cases h1 : data.length < creds.length
  · simp [h1, ServeOutcome.isReject, serveTrace]
  · rw [if_neg h1]
    simp only [parseFrame]
    cases hfind : findNL data with
    | none => exact ⟨rfl, rfl⟩
    | some idx =>
      by_cases h2 : idx ≤ creds.length
      · simp [h2, ServeOutcome.isReject, serveTrace]
      · simp [h2, hne, ServeOutcome.isReject, serveTrace]

/-- C1 witness: secret `"tok1"`, handshake starting with the wrong token
`"tokX"`. -/
theorem auth_mismatch_rejected_without_dial_witness :
    (serve (strBytes "tok1")
        ⟨List.replicate 266 0, some (strBytes "tokX127.0.0.1:9000\nHELLO"),
          fun _ => true, true⟩).isReject = true ∧
      serveTrace (serve (strBytes "tok1")
        ⟨List.replicate 266 0, some (strBytes "tokX127.0.0.1:9000\nHELLO"),
          fun _ => true, true⟩) = [Ev.putBuf, Ev.closeClient] :=
  auth_mismatch_rejected_without_dial (strBytes "tok1") (List.replicate 266 0)
    (strBytes "tokX127.0.0.1:9000\nHELLO") (fun _ => true) true
    (by decide) (by decide)

/-- C2: an initial read that errors, or yields fewer bytes than the
secret length, or contains no newline, or whose first newline offset is
at most the secret length, is rejected — the pooled buffer is returned
and the connection closed, with no dial attempted. -/
theorem malformed_handshake_rejected_before_dial
    (creds pool : List Nat) (rr : Option (List Nat)) (d : List Nat → Bool) (w : Bool)
    (h : rr = none ∨ ∃ data, rr = some data ∧
          (data.length < creds.length ∨ findNL data = none ∨
            ∃ idx, findNL data = some idx ∧ idx ≤ creds.length)) :
    (serve creds ⟨pool, rr, d, w⟩).isReject = true ∧
      serveTrace (serve creds ⟨pool, rr, d, w⟩) = [Ev.putBuf, Ev.closeClient] := by
  rcases h with h | ⟨data, hrr, hcase⟩
  · subst h
    exact ⟨rfl, rfl⟩
  · subst hrr
    rw [serve_some]
    by_cases h1 : data.length < creds.length
    · simp [h1, ServeOutcome.isReject, serveTrace]
    · rw [if_neg h1]
      simp only [parseFrame]
      rcases hcase with hlt | hfn | ⟨idx, hfi, hle⟩
      · exact absurd hlt h1
      · rw [hfn]
        exact ⟨rfl, rfl⟩
      · rw [hfi]
        simp [hle, ServeOutcome.isReject, serveTrace]

/-- C2 witness: a read with no newline at all. -/
theorem malformed_handshake_rejected_before_dial_witness :
    (serve (strBytes "tok1")
        ⟨List.replicate 266 0, some (strBytes "tok1127.0.0.1:9000"),
          fun _ => true, true⟩).isReject = true ∧
      serveTrace (serve (strBytes "tok1")
        ⟨List.replicate 266 0, some (strBytes "tok1127.0.0.1:9000"),
          fun _ => true, true⟩) = [Ev.putBuf, Ev.closeClient] :=
  malformed_handshake_rejected_before_dial (strBytes "tok1") (List.replicate 266 0)
    (some (strBytes "tok1127.0.0.1:9000")) (fun _ => true) true
    (Or.inr ⟨strBytes "tok1127.0.0.1:9000", rfl, Or.inr (Or.inl (by decide))⟩)

/-- C3: a valid frame `secret ++ address ++ newline ++ payload` delivered
in the initial read makes the handler dial exactly the bytes between the
secret and the newline, and the trace shows the payload written to the
target right after the dial and strictly before the relay starts. -/
theorem valid_handshake_dials_addr_and_writes_leftover_first
    (creds a p pool : List Nat) (d : List Nat → Bool) (w : Bool)
    (hc : NL ∉ creds) (ha : NL ∉ a) (hne : a ≠ [])
    (hd : d a = true) (hw : w = true) :
    serve creds ⟨pool, some (creds ++ a ++ NL :: p), d, w⟩ =
      ServeOutcome.relay a p ∧
    serveTrace (serve creds ⟨pool, some (creds ++ a ++ NL :: p), d, w⟩) =
      Ev.dial a ::
        ((if p = [] then [] else [Ev.write p]) ++
          [Ev.putBuf, Ev.relayStart, Ev.closeTarget, Ev.closeClient]) := by
  subst hw
  have h := serve_valid_frame creds a p pool d true hc ha hne
  rw [hd] at h
  have h' : serve creds ⟨pool, some (creds ++ a ++ NL :: p), d, true⟩ =
      ServeOutcome.relay a p := by
    rw [h]
    by_cases hp : p = [] <;> simp [hp]
  refine ⟨h', ?_⟩
  rw [h']
  rfl

/-- C3 witness: the end-to-end scenario of the spec — secret `"tok1"`,
frame `"tok1127.0.0.1:9000\nHELLO"` dials `127.0.0.1:9000` and writes
`HELLO` before the relay starts. -/
theorem valid_handshake_witness :
    serve (strBytes "tok1")
        ⟨List.replicate 266 0, some (strBytes "tok1127.0.0.1:9000\nHELLO"),
          fun _ => true, true⟩ =
      ServeOutcome.relay (strBytes "127.0.0.1:9000") (strBytes "HELLO") ∧
    serveTrace (serve (strBytes "tok1")
        ⟨List.replicate 266 0, some (strBytes "tok1127.0.0.1:9000\nHELLO"),
          fun _ => true, true⟩) =
      [Ev.dial (strBytes "127.0.0.1:9000"), Ev.write (strBytes "HELLO"),
        Ev.putBuf, Ev.relayStart, Ev.closeTarget, Ev.closeClient] := by
  have he : strBytes "tok1127.0.0.1:9000\nHELLO" =
      strBytes "tok1" ++ strBytes "127.0.0.1:9000" ++ NL :: strBytes "HELLO" := by
    decide
  rw [he]
  have h := valid_handshake_dials_addr_and_writes_leftover_first
    (strBytes "tok1") (strBytes "127.0.0.1:9000") (strBytes "HELLO")
    (List.replicate 266 0) (fun _ => true) true
    (by decide) (by decide) (by decide) rfl rfl
  refine ⟨h.1, ?_⟩
  rw [h.2]
  decide

/-- C10: the bytes the handler sends to the target are drawn entirely
from the bytes read off the client: the outcome is the same function of
the read data whatever residue earlier sessions left in the pooled
buffer, and both the dialed address and the forwarded leftover are
sublists of the read data. -/
theorem serve_output_independent_of_pool_residue :
    (∀ (creds pool1 pool2 data : List Nat) (d : List Nat → Bool) (w : Bool),
      serve creds ⟨pool1, some data, d, w⟩ = serve creds ⟨pool2, some data, d, w⟩)
    ∧ (∀ (creds pool data : List Nat) (d : List Nat → Bool) (w : Bool) (a l : List Nat),
        serve creds ⟨pool, some data, d, w⟩ = ServeOutcome.relay a l →
          a.Sublist data ∧ l.Sublist data) := by
  constructor
  · intro creds pool1 pool2 data d w
    rw [serve_some, serve_some]
  · intro creds pool data d w a l h
    rw [serve_some] at h
    split at h
    · exact ServeOutcome.noConfusion h
    · simp only [parseFrame] at h
      repeat' split at h
      any_goals exact ServeOutcome.noConfusion h
      all_goals
        injection h with h1 h2
        subst h1
        subst h2
        exact ⟨(List.drop_sublist _ _).trans (List.take_sublist _ _),
          List.drop_sublist _ _⟩

/-- C10 witness: on the concrete valid frame, the dialed address and the
leftover are sublists of the frame bytes. -/
theorem serve_output_independent_of_pool_residue_witness :
    (strBytes "127.0.0.1:9000").Sublist (strBytes "tok1127.0.0.1:9000\nHELLO") ∧
      (strBytes "HELLO").Sublist (strBytes "tok1127.0.0.1:9000\nHELLO") :=
  serve_output_independent_of_pool_residue.2 (strBytes "tok1") []
    (strBytes "tok1127.0.0.1:9000\nHELLO") (fun _ => true) true
    (strBytes "127.0.0.1:9000") (strBytes "HELLO") (by decide)

/-- C6: an empty configured secret disables authentication on both
surfaces — the framed handler can never fail the token comparison, `main`
of the HTTP proxy leaves `proxyAuth` nil for empty credentials, and with
a nil `proxyAuth` the request handler's result does not depend on the
`Proxy-Authorization` header at all. -/
theorem empty_secret_disables_auth :
    (∀ env : ServeEnv, (serve [] env).isAuthFail = false)
    ∧ mkProxyAuth "" = none
    ∧ (∀ (d : List Char → Bool) (f : Bool) (req : HttpReq) (hdr : List Nat),
        requestHandler none d f { req with proxyAuthHeader := hdr } =
          requestHandler none d f req) := by
  refine ⟨?_, by simp [mkProxyAuth], ?_⟩
  · intro env
    obtain ⟨pool, rr, d, w⟩ := env
    cases rr with
    | none => rfl
    | some data =>
      rw [serve_some]
      rw [if_neg (by simp)]
      simp only [parseFrame, List.length_nil, List.take_zero, eq_self_iff_true, if_true]
      repeat' split
      all_goals rfl
  · intro d f req hdr
    rfl

/-- C7: the pooled buffer length is `len(secret) + 262`; a frame whose
address is at most 261 bytes plus the newline fits in the buffer and
parses to exactly that address, while a 262-byte address leaves no
newline inside a buffer-sized read and is rejected as `noNewline`. -/
theorem handshake_buffer_capacity_boundary :
    (∀ n, bufLen n = n + 262)
    ∧ (∀ (creds a pool : List Nat) (d : List Nat → Bool) (w : Bool),
        NL ∉ creds → NL ∉ a → a ≠ [] → a.length ≤ 261 → d a = true →
        (creds ++ a ++ [NL]).length ≤ bufLen creds.length ∧
          serve creds ⟨pool, some (creds ++ a ++ [NL]), d, w⟩ =
            ServeOutcome.relay a [])
    ∧ (∀ (creds a p pool : List Nat) (d : List Nat → Bool) (w : Bool),
        NL ∉ creds → NL ∉ a → a.length = 262 →
        serve creds
            ⟨pool, some ((creds ++ a ++ NL :: p).take (bufLen creds.length)), d, w⟩ =
          ServeOutcome.noNewline) := by
  refine ⟨?_, ?_, ?_⟩
  · intro n
    simp only [bufLen]
  · intro creds a pool d w hc ha hne hlen hd
    constructor
    · simp only [List.length_append, List.length_cons, List.length_nil, bufLen]
      omega
    · have h := serve_valid_frame creds a [] pool d w hc ha hne
      rw [hd] at h
      simpa using h
  · intro creds a p pool d w hc ha hlen
    have hl : (creds ++ a).length = bufLen creds.length := by
      simp only [List.length_append, bufLen, hlen]
    have htake : (creds ++ a ++ NL :: p).take (bufLen creds.length) = creds ++ a := by
      rw [← hl]
      exact take_len_append (creds ++ a) (NL :: p)
    rw [htake, serve_some]
    have h1 : ¬ (creds ++ a).length < creds.length := by
      simp only [List.length_append]
      omega
    rw [if_neg h1]
    have hf : findNL (creds ++ a) = none :=
      findNL_eq_none _ (by simp [List.mem_append, hc, ha])
    simp only [parseFrame, hf]

set_option maxRecDepth 100000 in
/-- C7 witness: secret `"tok1"`, a 261-byte address parses to itself in
the sized buffer, and a 262-byte address is rejected for lack of a
newline in the buffer-sized read. -/
theorem handshake_buffer_capacity_boundary_witness :
    ((strBytes "tok1" ++ List.replicate 261 97 ++ [NL]).length ≤
        bufLen (strBytes "tok1").length ∧
      serve (strBytes "tok1")
          ⟨[], some (strBytes "tok1" ++ List.replicate 261 97 ++ [NL]),
            fun _ => true, true⟩ =
        ServeOutcome.relay (List.replicate 261 97) [])
    ∧ serve (strBytes "tok1")
        ⟨[], some ((strBytes "tok1" ++ List.replicate 262 97 ++ NL :: []).take
            (bufLen (strBytes "tok1").length)), fun _ => true, true⟩ =
      ServeOutcome.noNewline :=
  ⟨handshake_buffer_capacity_boundary.2.1 (strBytes "tok1") (List.replicate 261 97)
      [] (fun _ => true) true (by decide) (by decide) (by decide) (by decide) rfl,
    handshake_buffer_capacity_boundary.2.2 (strBytes "tok1") (List.replicate 262 97)
      [] [] (fun _ => true) true (by decide) (by decide) (by decide)⟩

/-- C5: accept errors fall in exactly three classes — a timeout is logged
and the accept retried after the one-second sleep (the loop continues on
the remaining accept results); `io.EOF` and "use of closed network
connection" both make `acceptConn` return `io.EOF`, which `main` turns
into a clean return; any other error is returned as permanent and makes
`main` reach `log.Panicln`, so the process stops accepting. -/
theorem accept_loop_error_classification :
    (∀ (ka : Bool) (kp : Nat) (rest : List AcceptStep),
      acceptConn ka kp (AcceptStep.timeout :: rest) =
        (AcceptEv.logTimeout :: AcceptEv.sleep1s :: (acceptConn ka kp rest).1,
          (acceptConn ka kp rest).2))
    ∧ (∀ (ka : Bool) (kp : Nat) (rest : List AcceptStep),
        acceptConn ka kp (AcceptStep.eofErr :: rest) = ([], AcceptResult.eof, rest))
    ∧ (∀ (ka : Bool) (kp : Nat) (rest : List AcceptStep),
        acceptConn ka kp (AcceptStep.closedErr :: rest) = ([], AcceptResult.eof, rest))
    ∧ (∀ (ka : Bool) (kp : Nat) (rest : List AcceptStep),
        acceptConn ka kp (AcceptStep.otherErr :: rest) = ([], AcceptResult.fatal, rest))
    ∧ (∀ (fuel : Nat) (rest : List AcceptStep),
        mainLoop (fuel + 1) (AcceptStep.eofErr :: rest) = ([], MainResult.cleanExit))
    ∧ (∀ (fuel : Nat) (rest : List AcceptStep),
        mainLoop (fuel + 1) (AcceptStep.closedErr :: rest) = ([], MainResult.cleanExit))
    ∧ (∀ (fuel : Nat) (rest : List AcceptStep),
        mainLoop (fuel + 1) (AcceptStep.otherErr :: rest) = ([], MainResult.fatalExit)) :=
  ⟨fun _ _ _ => rfl, fun _ _ _ => rfl, fun _ _ _ => rfl, fun _ _ _ => rfl,
    fun _ _ => rfl, fun _ _ => rfl, fun _ _ => rfl⟩

/-- C9 counterexample: the framed-protocol accept loop accepts from the
TLS listener, so the accepted connection is a `*tls.Conn`, the
`c.(*net.TCPConn)` type assertion fails, and the connection is accepted
and dispatched without `SetKeepAlive` ever being called — refuting the
claim that keepalive is enabled on every accepted connection. -/
theorem keepalive_skipped_for_tls_conn_cex :
    acceptConn true 0 [AcceptStep.conn ConnKind.tls true true] =
      ([], AcceptResult.conn ConnKind.tls false false, [])
    ∧ mainLoop 1 [AcceptStep.conn ConnKind.tls true true] =
      ([AcceptEv.dispatch], MainResult.stillLooping) := by
  exact ⟨by decide, by decide⟩

/-- C9 amended: keepalive is configured before dispatch only when the
accepted connection is a raw `*net.TCPConn` (and the period only when a
period is configured); a connection of any other concrete type — in
particular the `*tls.Conn` values produced by the TLS listener the loop
actually runs on — is dispatched with no keepalive configuration. -/
theorem keepalive_only_for_raw_tcp_conns :
    (∀ (kaPerOk : Bool) (rest : List AcceptStep),
      acceptConn true 0 (AcceptStep.conn ConnKind.tcp true kaPerOk :: rest) =
        ([AcceptEv.setKeepAlive], AcceptResult.conn ConnKind.tcp true false, rest))
    ∧ (∀ (kp : Nat) (rest : List AcceptStep), 0 < kp →
        acceptConn true kp (AcceptStep.conn ConnKind.tcp true true :: rest) =
          ([AcceptEv.setKeepAlive, AcceptEv.setKeepAlivePeriod],
            AcceptResult.conn ConnKind.tcp true true, rest))
    ∧ (∀ (k : ConnKind) (kaOk kaPerOk : Bool) (rest : List AcceptStep),
        k ≠ ConnKind.tcp →
        acceptConn true 0 (AcceptStep.conn k kaOk kaPerOk :: rest) =
          ([], AcceptResult.conn k false false, rest))
    ∧ (∀ (fuel : Nat) (kaPerOk : Bool) (rest : List AcceptStep),
        mainLoop (fuel + 1) (AcceptStep.conn ConnKind.tcp true kaPerOk :: rest) =
          (AcceptEv.setKeepAlive :: AcceptEv.dispatch :: (mainLoop fuel rest).1,
            (mainLoop fuel rest).2)) := by
  refine ⟨fun kaPerOk rest => rfl, ?_, ?_, fun fuel kaPerOk rest => rfl⟩
  · intro kp rest hkp
    simp [acceptConn, hkp]
  · intro k kaOk kaPerOk rest hk
    simp only [acceptConn]
    rw [if_neg]
    intro hand
    exact hk hand.1

/-- C9 amended witness: a TCP connection with a configured period gets
both keepalive calls; a unix-socket connection gets none. -/
theorem keepalive_only_for_raw_tcp_conns_witness :
    acceptConn true 1 [AcceptStep.conn ConnKind.tcp true true] =
      ([AcceptEv.setKeepAlive, AcceptEv.setKeepAlivePeriod],
        AcceptResult.conn ConnKind.tcp true true, [])
    ∧ acceptConn true 0 [AcceptStep.conn ConnKind.unix true true] =
      ([], AcceptResult.conn ConnKind.unix false false, []) :=
  ⟨keepalive_only_for_raw_tcp_conns.2.1 1 [] (by decide),
    keepalive_only_for_raw_tcp_conns.2.2.1 ConnKind.unix true true [] (by decide)⟩

namespace HttpProxy

/-- Sanity check of the base64 model against a well-known encoding. -/
theorem base64_user_pass :
    base64Encode (strBytes "user:pass") = strBytes "dXNlcjpwYXNz" := by
  decide

/-- A string without the character has no last index for it. -/
theorem lastIdxOf_eq_none (c : Char) (s : List Char) (h : c ∉ s) :
    lastIdxOf c s = none := by
  induction s with
  | nil => rfl
  | cons x xs ih =>
    rw [List.mem_cons, not_or] at h
    simp only [lastIdxOf, ih h.2]
    rw [if_neg (fun hx => h.1 hx.symm)]

/-- The last occurrence of `c` in `xs ++ c :: ys` is at `xs.length` when
neither side contains another `c`. -/
theorem lastIdxOf_append_cons (c : Char) (xs ys : List Char)
    (hx : c ∉ xs) (hy : c ∉ ys) :
    lastIdxOf c (xs ++ c :: ys) = some xs.length := by
  induction xs with
  | nil =>
    simp only [List.nil_append, lastIdxOf, lastIdxOf_eq_none c ys hy,
      List.length_nil, eq_self_iff_true, if_true]
  | cons x xs ih =>
    rw [List.mem_cons, not_or] at hx
    simp only [List.cons_append, lastIdxOf, List.append_eq, ih hx.2, List.length_cons]

/-- A host with no colon makes `SplitHostPort` fail with "missing port". -/
theorem splitHostPort_no_colon (host : List Char) (h : ':' ∉ host) :
    splitHostPort host = Except.error AddrErr.missingPort := by
  simp only [splitHostPort, lastIdxOf_eq_none ':' host h]

/-- Splitting `host ++ ":" ++ port` returns the pair back when the host is
a plain bracket-free, colon-free name and the port has no special
characters. -/
theorem splitHostPort_append_port (host ds : List Char)
    (hne : host ≠ []) (hc : ':' ∉ host) (hlb : '[' ∉ host) (hrb : ']' ∉ host)
    (hdc : ':' ∉ ds) (hdl : '[' ∉ ds) (hdr : ']' ∉ ds) :
    splitHostPort (host ++ ':' :: ds) = Except.ok (host, ds) := by
  have hlast : lastIdxOf ':' (host ++ ':' :: ds) = some host.length :=
    lastIdxOf_append_cons ':' host ds hc hdc
  have htake : (host ++ ':' :: ds).take host.length = host :=
    take_len_append host (':' :: ds)
  have hdrop : (host ++ ':' :: ds).drop (host.length + 1) = ds := by
    have he : host ++ ':' :: ds = (host ++ [':']) ++ ds := by simp
    have hl : (host ++ [':']).length = host.length + 1 := by
      simp only [List.length_append, List.length_cons, List.length_nil]
    rw [he, ← hl, drop_len_append]
  have hhead : ¬ (host ++ ':' :: ds).head? = some '[' := by
    cases host with
    | nil => exact absurd rfl hne
    | cons x xs =>
      rw [List.mem_cons, not_or] at hlb
      simp only [List.cons_append, List.head?]
      intro hx
      injection hx with hx
      exact hlb.1 hx.symm
  have hmem2 : ¬ '[' ∈ host ++ ':' :: ds := by
    rw [List.mem_append, List.mem_cons]
    push_neg
    exact ⟨hlb, by decide, hdl⟩
  have hmem3 : ¬ ']' ∈ host ++ ':' :: ds := by
    rw [List.mem_append, List.mem_cons]
    push_neg
    exact ⟨hrb, by decide, hdr⟩
  simp only [splitHostPort, hlast, if_neg hhead, htake, if_neg hc, if_neg hmem2,
    if_neg hmem3, hdrop]

/-- Trimming trailing colons from a colon-free string changes nothing. -/
theorem trimRightColon_no_colon (s : List Char) (h : ':' ∉ s) :
    trimRightColon s = s := by
  unfold trimRightColon
  have hall : s.reverse.dropWhile (fun c => c = ':') = s.reverse := by
    cases hr : s.reverse with
    | nil => rfl
    | cons x xs =>
      rw [List.dropWhile_cons]
      have hx : ¬ x = ':' := by
        intro hx
        apply h
        rw [← List.mem_reverse, hr, hx]
        exact List.mem_cons_self _ _
      simp [hx]
  rw [hall, List.reverse_reverse]

end HttpProxy

/-- C4: with configured credentials, any request whose header differs
from `"Basic " + base64(creds)` is answered 400 with no dial attempted;
a CONNECT request with the exact header, a resolvable host and a
reachable target is answered with the hijacked 200 tunnel toward the
dialed `[hostname]:port` target. -/
theorem connect_adapter_auth_check :
    (∀ (cr : String) (d : List Char → Bool) (f : Bool) (req : HttpReq),
      cr ≠ "" →
      req.proxyAuthHeader ≠ strBytes "Basic " ++ base64Encode (strBytes cr) →
      requestHandler (mkProxyAuth cr) d f req = ⟨[], false, HttpRes.status 400⟩)
    ∧ (∀ (cr : String) (d : List Char → Bool) (f : Bool) (req : HttpReq)
        (hostname port : List Char),
        cr ≠ "" →
        req.proxyAuthHeader = strBytes "Basic " ++ base64Encode (strBytes cr) →
        req.method = String.data "CONNECT" →
        1 ≤ req.host.length →
        splitHostRetry443 req.host = Except.ok (hostname, port) →
        d ('[' :: (hostname ++ ']' :: ':' :: port)) = true →
        requestHandler (mkProxyAuth cr) d f req =
          ⟨['[' :: (hostname ++ ']' :: ':' :: port)], false,
            HttpRes.tunnel ('[' :: (hostname ++ ']' :: ':' :: port))⟩) := by
  constructor
  · intro cr d f req hcr hne
    simp only [mkProxyAuth, if_neg hcr, requestHandler]
    rw [if_neg hne]
  · intro cr d f req hostname port hcr hh hm hhost hsplit hd
    simp only [mkProxyAuth, if_neg hcr, requestHandler]
    rw [if_pos hh]
    have hlen : ¬ req.host.length < 1 := by omega
    simp only [requestHandlerBody, if_neg hlen, hsplit, if_pos hm, httpsHandler, hd]
    rfl

/-- C4 witness: credentials `user:pass`; a wrong header is answered 400,
and a CONNECT to `example.com:443` with the exact header is tunneled. -/
theorem connect_adapter_auth_check_witness :
    requestHandler (mkProxyAuth "user:pass") (fun _ => true) true
        ⟨String.data "GET", String.data "example.com:443", String.data "/",
          strBytes "Basic nope"⟩ = ⟨[], false, HttpRes.status 400⟩
    ∧ requestHandler (mkProxyAuth "user:pass") (fun _ => true) true
        ⟨String.data "CONNECT", String.data "example.com:443", String.data "/",
          strBytes "Basic " ++ base64Encode (strBytes "user:pass")⟩ =
      ⟨['[' :: (String.data "example.com" ++ ']' :: ':' :: String.data "443")], false,
        HttpRes.tunnel
          ('[' :: (String.data "example.com" ++ ']' :: ':' :: String.data "443"))⟩ :=
  ⟨connect_adapter_auth_check.1 "user:pass" (fun _ => true) true _
      (by decide) (by decide),
    connect_adapter_auth_check.2 "user:pass" (fun _ => true) true _
      (String.data "example.com") (String.data "443")
      (by decide) rfl rfl (by decide) rfl rfl⟩

/-- C8: for a plain bracket-free host carrying no port, the CONNECT path
dials `[host]:443` (the 443 default comes from the retry in
`requestHandler`), while the outbound HTTP client's dial function used
for plain forwarded requests dials `[host]:80`. -/
theorem default_ports_connect_443_plain_80
    (host : List Char) (d : List Char → Bool) (f : Bool) (hdr : List Nat)
    (hne : host ≠ []) (hc : ':' ∉ host) (hlb : '[' ∉ host) (hrb : ']' ∉ host)
    (hd : d ('[' :: (host ++ ']' :: ':' :: ['4', '4', '3'])) = true) :
    requestHandler none d f ⟨String.data "CONNECT", host, String.data "/", hdr⟩ =
      ⟨['[' :: (host ++ ']' :: ':' :: ['4', '4', '3'])], false,
        HttpRes.tunnel ('[' :: (host ++ ']' :: ':' :: ['4', '4', '3']))⟩
    ∧ httpClientDial host =
      Except.ok ('[' :: (host ++ ']' :: ':' :: ['8', '0'])) := by
  have hsplit0 : splitHostPort host = Except.error AddrErr.missingPort :=
    splitHostPort_no_colon host hc
  constructor
  · have h443 : splitHostPort (host ++ ':' :: ['4', '4', '3']) =
        Except.ok (host, ['4', '4', '3']) :=
      splitHostPort_append_port host ['4', '4', '3'] hne hc hlb hrb
        (by decide) (by decide) (by decide)
    have hretry : splitHostRetry443 host = Except.ok (host, ['4', '4', '3']) := by
      simp only [splitHostRetry443, hsplit0, if_pos rfl]
      exact h443
    have hlen : ¬ (host : List Char).length < 1 := by
      have := List.length_pos.2 hne
      omega
    simp only [requestHandler, requestHandlerBody, if_neg hlen, hretry,
      if_pos rfl, httpsHandler, hd]
    rfl
  · have h80 : splitHostPort (host ++ ':' :: ['8', '0']) =
        Except.ok (host, ['8', '0']) :=
      splitHostPort_append_port host ['8', '0'] hne hc hlb hrb
        (by decide) (by decide) (by decide)
    have htrim : trimRightColon host = host := trimRightColon_no_colon host hc
    unfold httpClientDial
    rw [hsplit0]
    dsimp only
    rw [if_pos rfl, htrim, h80]
    dsimp only
    unfold defaultPort80
    rw [if_neg (by decide)]

/-- C8 witness: `example.com` without a port is dialed as
`[example.com]:443` by the CONNECT path and `[example.com]:80` by the
HTTP client's dial function. -/
theorem default_ports_witness :
    requestHandler none (fun _ => true) true
        ⟨String.data "CONNECT", String.data "example.com", String.data "/", []⟩ =
      ⟨['[' :: (String.data "example.com" ++ ']' :: ':' :: ['4', '4', '3'])], false,
        HttpRes.tunnel
          ('[' :: (String.data "example.com" ++ ']' :: ':' :: ['4', '4', '3']))⟩
    ∧ httpClientDial (String.data "example.com") =
      Except.ok ('[' :: (String.data "example.com" ++ ']' :: ':' :: ['8', '0'])) :=
  default_ports_connect_443_plain_80 (String.data "example.com") (fun _ => true)
    true [] (by decide) (by decide) (by decide) (by decide) rfl
